import Mathlib

/-!
Verification of the C backend of the cloudabi ABI generator
(`generator/c.py`).  The Python classes are embedded shallowly: the
type graph and syscall records become Lean structures, and every
emission routine becomes a pure function producing the list of emitted
lines (or an `Except` value when the Python code can raise).
-/

set_option maxHeartbeats 1000000

/-- Layout data carried by every sized type: `size` and `align` are
`(value_for_32bit, value_for_64bit)` pairs, plus the `machine_dep`
flag.  Modelled from the spec section 3 (`abi.py` is not in `src/`). -/
structure Layout where
  size : Nat × Nat
  align : Nat × Nat
  machineDep : Bool
deriving DecidableEq, Repr

/-- The type graph of the ABI description, covering the kinds that
`generator/c.py` dispatches on: Void, Int, UserDefined, Struct (a
subclass of UserDefined in the source, hence rendered the same way by
`typename`), Atomic, Pointer and Array.  Modelled from the spec
section 3 (`abi.py` is not in `src/`). -/
inductive CType where
  | void
  | int (name : String) (layout : Layout)
  | userDefined (name : String) (layout : Layout)
  | struct (name : String) (layout : Layout)
  | atomic (target : CType)
  | pointer (const : Bool) (target : CType)
  | array (count : Nat) (element : CType)
deriving DecidableEq, Repr

/-- Layout accessor.  Int/UserDefined/Struct carry their layout;
Atomic inherits from its target; Pointer has the architecture pointer
width `(4, 8)`; Array multiplies the element size by the count.
Modelled from the spec section 3 (`abi.py` is not in `src/`); the
claims below only ever read the layouts of Int and Struct nodes. -/
def CType.layout : CType → Layout
  | .void => ⟨(0, 0), (1, 1), false⟩
  | .int _ l => l
  | .userDefined _ l => l
  | .struct _ l => l
  | .atomic t => t.layout
  | .pointer _ _ => ⟨(4, 8), (4, 8), true⟩
  | .array k e =>
      ⟨(k * e.layout.size.1, k * e.layout.size.2), e.layout.align,
        e.layout.machineDep⟩

/-- Test for `isinstance(type, StructType)` as used by `_ccast`. -/
def CType.isStruct : CType → Bool
  | .struct _ _ => true
  | _ => false

/-- Test for `isinstance(type, PointerType)`. -/
def CType.isPointer : CType → Bool
  | .pointer _ _ => true
  | _ => false

/-- Test for `isinstance(type, ArrayType)`. -/
def CType.isArray : CType → Bool
  | .array _ _ => true
  | _ => false

/-- The `CNaming` configuration: a default prefix, an optional
machine-dependent prefix, and the C11 flag (source lines 10-15). -/
structure CNaming where
  pfx : String
  mdPfx : Option String := none
  c11 : Bool := true
deriving DecidableEq, Repr

/-- Prefix selection of `CNaming.typename` for user-defined types
(source lines 24-28): the machine-dependent prefix is used when one is
configured and the type is machine-dependent. -/
def effPfx (n : CNaming) (machineDep : Bool) : String :=
  match n.mdPfx with
  | some p => if machineDep then p else n.pfx
  | none => n.pfx

mutual

/-- Embedding of `CNaming.typename` (source lines 17-39).  The Pointer and Array
cases delegate to `vardecl` with an empty name; here that single
delegation step is unfolded so that the mutual recursion is structural
(the delegation equations are proved as `typename_pointer` and
`typename_array` below, by `rfl`). -/
def typename (n : CNaming) : CType → String
  | .void => "void"
  | .int name _ => if name = "char" then "char" else name ++ "_t"
  | .userDefined name l => effPfx n l.machineDep ++ name ++ "_t"
  | .struct name l => effPfx n l.machineDep ++ name ++ "_t"
  | .atomic t =>
      if n.c11 then "_Atomic(" ++ typename n t ++ ")" else typename n t
  | .pointer c t =>
      (if c then "const " else "") ++ vardecl n t ("*" ++ "") true
  | .array k e => vardecl n e ("" ++ "[" ++ toString k ++ "]") false
termination_by structural t => t

/-- Embedding of `CNaming.vardecl` (source lines 50-64), the recursive declarator;
the third argument is `array_need_parens`.  The final catch-all case
of the source (`typename(type) + " " + name`) is split per remaining
constructor, with `typename`'s body unfolded one step, so that the
mutual recursion is structural (the catch-all equation is proved as
`vardecl_scalar` below). -/
def vardecl (n : CNaming) : CType → String → Bool → String
  | .pointer c t, name, _ =>
      (if c then "const " else "") ++ vardecl n t ("*" ++ name) true
  | .array k e, name, needParens =>
      vardecl n e
        ((if needParens then "(" ++ name ++ ")" else name) ++
          "[" ++ toString k ++ "]") false
  | .void, name, _ => "void" ++ " " ++ name
  | .int nm _, name, _ =>
      (if nm = "char" then "char" else nm ++ "_t") ++ " " ++ name
  | .userDefined nm l, name, _ =>
      (effPfx n l.machineDep ++ nm ++ "_t") ++ " " ++ name
  | .struct nm l, name, _ =>
      (effPfx n l.machineDep ++ nm ++ "_t") ++ " " ++ name
  | .atomic t, name, _ =>
      (if n.c11 then "_Atomic(" ++ typename n t ++ ")" else typename n t)
        ++ " " ++ name
termination_by structural t _ _ => t

end

/-- The source's `typename` on a Pointer literally returns
`vardecl(type, '')`. -/
theorem typename_pointer (n : CNaming) (c : Bool) (t : CType) :
    typename n (.pointer c t) = vardecl n (.pointer c t) "" false := rfl

/-- The source's `typename` on an Array literally returns
`vardecl(type, '')`. -/
theorem typename_array (n : CNaming) (k : Nat) (e : CType) :
    typename n (.array k e) = vardecl n (.array k e) "" false := rfl

/-- The source's `vardecl` catch-all case: every non-Pointer,
non-Array type renders as `typename(type) + " " + name`. -/
theorem vardecl_scalar (n : CNaming) (t : CType) (name : String)
    (p : Bool) (hp : t.isPointer = false) (ha : t.isArray = false) :
    vardecl n t name p = typename n t ++ " " ++ name := by
  cases t <;> simp_all [CType.isPointer, CType.isArray] <;> rfl

/-- C7: the declarator routine satisfies the three advertised cases:
a Pointer recurses into the target with the name rewritten to `*name`
and the parenthesization flag set, prepending `const ` when
const-qualified; an Array wraps the name in parentheses exactly when
the flag is set and recurses into the element type with the name
rewritten to `name[count]`; any other type renders as the type name, a
space, and the variable name. -/
theorem c7_vardecl_cases (n : CNaming) :
    (∀ (c : Bool) (t : CType) (name : String) (p : Bool),
      vardecl n (.pointer c t) name p =
        (if c then "const " else "") ++ vardecl n t ("*" ++ name) true) ∧
    (∀ (k : Nat) (e : CType) (name : String) (p : Bool),
      vardecl n (.array k e) name p =
        vardecl n e
          ((if p then "(" ++ name ++ ")" else name) ++
            "[" ++ toString k ++ "]") false) ∧
    (∀ (t : CType) (name : String) (p : Bool),
      t.isPointer = false → t.isArray = false →
      vardecl n t name p = typename n t ++ " " ++ name) :=
  ⟨fun _ _ _ _ => rfl, fun _ _ _ _ => rfl,
    fun t name p hp ha => vardecl_scalar n t name p hp ha⟩

/-- Witness for `c7_vardecl_cases`: the scalar case at a concrete
non-pointer, non-array type. -/
theorem c7_vardecl_cases_witness :
    vardecl ⟨"cloudabi_", none, true⟩
        (.userDefined "timestamp" ⟨(8, 8), (8, 8), false⟩) "ts" false =
      typename ⟨"cloudabi_", none, true⟩
        (.userDefined "timestamp" ⟨(8, 8), (8, 8), false⟩) ++ " " ++ "ts" :=
  (c7_vardecl_cases _).2.2 _ "ts" false rfl rfl

/-- The `md_type.layout.size` access guarded by `md_type is not None`
(source lines 218-222). -/
def mdSize (mdType : Option CType) : Option (Nat × Nat) :=
  mdType.map fun t => t.layout.size

/-- Embedding of `CSyscalldefsGenerator.generate_layout_assert` (source lines
216-230): one unguarded `_Static_assert` when both layout values agree
or a fixed machine word width is configured, else two assertions
guarded on `sizeof(void *)`. -/
def generate_layout_assert (n : CNaming) (mdType : Option CType)
    (expression : String) (value : Nat × Nat) : List String :=
  if value.1 = value.2 ∨ mdSize mdType = some (4, 4) ∨
      mdSize mdType = some (8, 8) then
    let v := if mdSize mdType = some (4, 4) then value.1 else value.2
    ["_Static_assert(" ++ expression ++ " == " ++ toString v ++
      ", \"Incorrect layout\");"]
  else
    let voidptr := typename n (.pointer false .void)
    ["_Static_assert(sizeof(" ++ voidptr ++ ") != 4 || " ++ expression ++
      " == " ++ toString value.1 ++ ", \"Incorrect layout\");",
     "_Static_assert(sizeof(" ++ voidptr ++ ") != 8 || " ++ expression ++
      " == " ++ toString value.2 ++ ", \"Incorrect layout\");"]

/-- C1: the layout-assertion value policy.  With no fixed machine word
width configured, equal pair values yield exactly one unguarded
assertion against that value and distinct values yield exactly the two
`sizeof(void *)`-guarded assertions; a configured `md_type` of size
`(4, 4)` selects the first pair element in a single unguarded
assertion even when the values differ, and size `(8, 8)` selects the
second. -/
theorem c1_layout_assert_value_policy (n : CNaming) (e : String)
    (v : Nat × Nat) :
    (v.1 = v.2 → generate_layout_assert n none e v =
        ["_Static_assert(" ++ e ++ " == " ++ toString v.1 ++
          ", \"Incorrect layout\");"]) ∧
    (v.1 ≠ v.2 → generate_layout_assert n none e v =
        ["_Static_assert(sizeof(void *) != 4 || " ++ e ++ " == " ++
           toString v.1 ++ ", \"Incorrect layout\");",
         "_Static_assert(sizeof(void *) != 8 || " ++ e ++ " == " ++
           toString v.2 ++ ", \"Incorrect layout\");"]) ∧
    (∀ t : CType, t.layout.size = (4, 4) →
      generate_layout_assert n (some t) e v =
        ["_Static_assert(" ++ e ++ " == " ++ toString v.1 ++
          ", \"Incorrect layout\");"]) ∧
    (∀ t : CType, t.layout.size = (8, 8) →
      generate_layout_assert n (some t) e v =
        ["_Static_assert(" ++ e ++ " == " ++ toString v.2 ++
          ", \"Incorrect layout\");"]) := by
  refine ⟨fun h => ?_, fun h => ?_, fun t ht => ?_, fun t ht => ?_⟩
  · rw [generate_layout_assert, if_pos (Or.inl h)]
    simp only [mdSize, Option.map_none]
    rw [if_neg (by simp), h]
  · rw [generate_layout_assert, if_neg (by simp [mdSize, h])]
    exact rfl
  · rw [generate_layout_assert,
      if_pos (Or.inr (Or.inl (by simp [mdSize, ht]))),
      if_pos (by simp [mdSize, ht])]
  · rw [generate_layout_assert,
      if_pos (Or.inr (Or.inr (by simp [mdSize, ht]))),
      if_neg (by simp [mdSize, ht])]

/-- Witness for `c1_layout_assert_value_policy`: the dual-width case
at offset pair `(4, 8)` and the fixed-width cases. -/
theorem c1_layout_assert_value_policy_witness :
    generate_layout_assert ⟨"cloudabi_", none, true⟩ none
        "offsetof(cloudabi_event_t, b)" (4, 8) =
      ["_Static_assert(sizeof(void *) != 4 || offsetof(cloudabi_event_t, b) == 4, \"Incorrect layout\");",
       "_Static_assert(sizeof(void *) != 8 || offsetof(cloudabi_event_t, b) == 8, \"Incorrect layout\");"] ∧
    generate_layout_assert ⟨"cloudabi_", none, true⟩
        (some (.int "uint32" ⟨(4, 4), (4, 4), false⟩))
        "offsetof(cloudabi_event_t, b)" (4, 8) =
      ["_Static_assert(offsetof(cloudabi_event_t, b) == 4, \"Incorrect layout\");"] :=
  ⟨by
    have h := (c1_layout_assert_value_policy ⟨"cloudabi_", none, true⟩
      "offsetof(cloudabi_event_t, b)" (4, 8)).2.1 (by decide)
    rw [h]; rfl,
   by
    have h := (c1_layout_assert_value_policy ⟨"cloudabi_", none, true⟩
      "offsetof(cloudabi_event_t, b)" (4, 8)).2.2.1
      (.int "uint32" ⟨(4, 4), (4, 4), false⟩) rfl
    rw [h]; exact rfl⟩

/-- The exceptions the syscall lowering can raise: the `assert` in
`define_reg` (source line 290), a Python `IndexError` on
`input_registers[i]` (line 301) or `output_registers[i]` (lines 305,
324, 346), and the cast-size `Exception` of `_ccast` (line 361),
carrying the two types of the failed cast. -/
inductive GenError where
  | assertion
  | inputIndex
  | outputIndex
  | cast (typeFrom typeTo : CType)
deriving DecidableEq, Repr

/-- Rendering a pointer to a non-pointer, non-array type appends
` *` to the pointee's type name. -/
theorem typename_pointer_scalar (n : CNaming) (t : CType)
    (hp : t.isPointer = false) (ha : t.isArray = false) :
    typename n (.pointer false t) = typename n t ++ " *" := by
  have h := vardecl_scalar n t ("*" ++ "") true hp ha
  simp only [typename, Bool.false_eq_true, if_false, h,
    String.empty_append, String.append_assoc]
  rfl

/-- Embedding of `CSyscallsImplGenerator._ccast` (source lines 357-366): a cast
involving a struct on either side demands equal layout sizes and is
rendered as a pointer reinterpretation and dereference; any other cast
is an ordinary C value cast. -/
def ccast (n : CNaming) (typeFrom typeTo : CType) (name : String) :
    Except GenError String :=
  if typeFrom.isStruct || typeTo.isStruct then
    if typeFrom.layout.size ≠ typeTo.layout.size then
      .error (.cast typeFrom typeTo)
    else
      .ok ("*(" ++ typename n (.pointer false typeTo) ++ ")&" ++ name)
  else
    .ok ("(" ++ typename n typeTo ++ ")" ++ name)

/-- C3: casting between a struct type and the register integer type
(in either direction) raises a fatal error when the sizes differ, and
otherwise renders as the pointer reinterpretation-and-dereference
`*(target_type *)&name`; a cast with no struct on either side is the
ordinary value cast `(target_type)name`. -/
theorem c3_ccast_struct_register_guard (n : CNaming) (sname : String)
    (sl : Layout) (rname : String) (rl : Layout) (x : String) :
    (sl.size ≠ rl.size →
      ccast n (.struct sname sl) (.int rname rl) x =
          .error (.cast (.struct sname sl) (.int rname rl)) ∧
      ccast n (.int rname rl) (.struct sname sl) x =
          .error (.cast (.int rname rl) (.struct sname sl))) ∧
    (sl.size = rl.size →
      ccast n (.struct sname sl) (.int rname rl) x =
          .ok ("*(" ++ typename n (.int rname rl) ++ " *)&" ++ x) ∧
      ccast n (.int rname rl) (.struct sname sl) x =
          .ok ("*(" ++ typename n (.struct sname sl) ++ " *)&" ++ x)) ∧
    (∀ tf tt : CType, tf.isStruct = false → tt.isStruct = false →
      ccast n tf tt x = .ok ("(" ++ typename n tt ++ ")" ++ x)) := by
  refine ⟨fun h => ⟨?_, ?_⟩, fun h => ⟨?_, ?_⟩, fun tf tt h1 h2 => ?_⟩
  · simp [ccast, CType.isStruct, CType.layout, h]
  · simp [ccast, CType.isStruct, CType.layout, Ne.symm h]
  · rw [ccast]
    simp only [CType.isStruct, Bool.true_or, Bool.or_true, if_true,
      CType.layout, h, ne_eq, not_true_eq_false, if_false, ite_false]
    rw [typename_pointer_scalar n (.int rname rl) rfl rfl]
    simp [String.append_assoc]
  · rw [ccast]
    simp only [CType.isStruct, Bool.true_or, Bool.or_true, if_true,
      CType.layout, h, ne_eq, not_true_eq_false, if_false, ite_false]
    rw [typename_pointer_scalar n (.struct sname sl) rfl rfl]
    simp [String.append_assoc]
  · simp [ccast, h1, h2]

/-- Witness for `c3_ccast_struct_register_guard`: a struct of size 12
cannot be cast to an 8-byte register, a struct of size 8 is lowered as
a pointer reinterpretation. -/
theorem c3_ccast_struct_register_guard_witness :
    ccast ⟨"cloudabi_", none, true⟩
        (.struct "iovec" ⟨(12, 12), (4, 4), false⟩)
        (.int "uint64" ⟨(8, 8), (8, 8), false⟩) "x" =
      .error (.cast (.struct "iovec" ⟨(12, 12), (4, 4), false⟩)
        (.int "uint64" ⟨(8, 8), (8, 8), false⟩)) ∧
    ccast ⟨"cloudabi_", none, true⟩
        (.struct "rights" ⟨(8, 8), (8, 8), false⟩)
        (.int "uint64" ⟨(8, 8), (8, 8), false⟩) "x" =
      .ok "*(uint64_t *)&x" := by
  constructor
  · exact ((c3_ccast_struct_register_guard ⟨"cloudabi_", none, true⟩
      "iovec" ⟨(12, 12), (4, 4), false⟩ "uint64" ⟨(8, 8), (8, 8), false⟩
      "x").1 (by decide)).1
  · have h := ((c3_ccast_struct_register_guard ⟨"cloudabi_", none, true⟩
      "rights" ⟨(8, 8), (8, 8), false⟩ "uint64" ⟨(8, 8), (8, 8), false⟩
      "x").2.1 rfl).1
    rw [h]; rfl

/-- One named constant of an IntLike type (`abi.py` is not in `src/`;
modelled from the spec: a Value is a name and an integer value). -/
structure EnumValue where
  name : String
  value : Int
deriving DecidableEq, Repr

/-- The three IntLike subkinds.  `opaq` stands for the Opaque kind. -/
inductive IntLikeKind where
  | enum
  | flags
  | opaq
deriving DecidableEq, Repr

/-- An IntLike type: a backing int type plus an ordered value list.
`cpfx` is the source's per-type `cprefix` attribute used in constant
names.  Modelled from the spec section 3 (`abi.py` is not in
`src/`). -/
structure IntLikeType where
  name : String
  cpfx : String
  kind : IntLikeKind
  intType : CType
  values : List EnumValue
  layout : Layout
deriving DecidableEq, Repr

/-- Python's `str.upper()` restricted to the ASCII identifiers that
constant names consist of. -/
def strUpper (s : String) : String := String.mk (s.data.map Char.toUpper)

/-- Embedding of `CNaming.valname` (source lines 41-42):
`(prefix + cprefix + name).upper()`. -/
def valname (n : CNaming) (t : IntLikeType) (v : EnumValue) : String :=
  strUpper (n.pfx ++ t.cpfx ++ v.name)

/-- Python `'{:<width>}'` string formatting: left-aligned, padded with
spaces on the right when shorter than the width. -/
def pyStrPad (width : Nat) (s : String) : String :=
  if s.length < width then
    s ++ String.mk (List.replicate (width - s.length) ' ') else s

/-- Python `'{:<width>d}'` integer formatting: right-aligned, padded
with spaces on the left when shorter than the width. -/
def pyIntPad (width : Nat) (v : Int) : String :=
  let s := toString v
  if s.length < width then
    String.mk (List.replicate (width - s.length) ' ') ++ s else s

/-- Lowercase hexadecimal digit list of a natural number (fuelled so
that it reduces in the kernel; the fuel `n + 1` always suffices). -/
def hexRepAux : Nat → Nat → List Char
  | 0, _ => []
  | fuel + 1, m =>
      if m < 16 then [Nat.digitChar m]
      else hexRepAux fuel (m / 16) ++ [Nat.digitChar (m % 16)]

/-- Lowercase hexadecimal digit list of a natural number. -/
def hexRep (m : Nat) : List Char := hexRepAux (m + 1) m

/-- Python `'{:#0<width>x}'` integer formatting: sign, `0x` prefix,
then zeros up to the total width, then the hex digits. -/
def pyHashZeroHex (width : Nat) (v : Int) : String :=
  let sign := if v < 0 then "-" else ""
  let digits := String.mk (hexRep v.natAbs)
  let pad := width - (sign.length + 2 + digits.length)
  sign ++ "0x" ++ String.mk (List.replicate pad '0') ++ digits

/-- The shared `#define` column width (source lines 139-140): the
longest rendered constant name. -/
def defineNameWidth (n : CNaming) (t : IntLikeType) : Nat :=
  (t.values.map fun v => (valname n t v).length).foldl max 0

/-- The decimal width used for Enum values (source line 149): the
longest rendered value. -/
def enumValWidth (t : IntLikeType) : Nat :=
  (t.values.map fun v => (toString v.value).length).foldl max 0

/-- The test `len(type.values) == 1 and type.values[0].value == 0` of
source line 143. -/
def singleZero (vs : List EnumValue) : Bool :=
  match vs with
  | [v0] => v0.value == 0
  | _ => false

/-- The value rendering selected by source lines 141-150: Flags/Opaque
use `#0{2*size+2}x` format unless the sole value is zero (plain `d`);
Enum uses `{max_width}d`. -/
def renderIntLikeValue (t : IntLikeType) (v : EnumValue) : String :=
  if t.kind = .flags ∨ t.kind = .opaq then
    if singleZero t.values then
      toString v.value
    else pyHashZeroHex (t.layout.size.1 * 2 + 2) v.value
  else pyIntPad (enumValWidth t) v.value

/-- The `#define` table emitted for an IntLike type (source lines
138-158); the preceding `typedef` line (136-137) is separate output
and not part of this table. -/
def intlike_defines (n : CNaming) (t : IntLikeType) : List String :=
  if t.values.length > 0 then
    t.values.map fun v =>
      "#define " ++ pyStrPad (defineNameWidth n t) (valname n t v) ++
        " " ++ renderIntLikeValue t v
  else []

/-- Right-alignment to a column width, as the spec words it. -/
def rightAligned (w : Nat) (s : String) : String :=
  String.mk (List.replicate (w - s.length) ' ') ++ s

/-- Left-alignment to a column width, as the spec words it. -/
def leftAligned (w : Nat) (s : String) : String :=
  s ++ String.mk (List.replicate (w - s.length) ' ')

/-- Zero-padded hexadecimal with `0x` prefix at a byte size, as the
spec words it: total width `2*bytes + 2` when the digits fit. -/
def zeroPaddedHex (bytes : Nat) (m : Nat) : String :=
  "0x" ++ String.mk (List.replicate (2 * bytes - (hexRep m).length) '0') ++
    String.mk (hexRep m)

theorem foldl_max_init_le (l : List Nat) (init : Nat) :
    init ≤ l.foldl max init := by
  induction l generalizing init with
  | nil => exact le_refl _
  | cons b bs ih => exact le_trans (le_max_left init b) (ih (max init b))

theorem foldl_max_mem_le (l : List Nat) (a : Nat) :
    ∀ init : Nat, a ∈ l → a ≤ l.foldl max init := by
  induction l with
  | nil => intro init h; cases h
  | cons b bs ih =>
      intro init h
      rcases List.mem_cons.mp h with rfl | hmem
      · exact le_trans (le_max_right init a) (foldl_max_init_le bs _)
      · exact ih (max init b) hmem

theorem pyIntPad_eq_rightAligned (w : Nat) (v : Int) :
    pyIntPad w v = rightAligned w (toString v) := by
  rw [pyIntPad, rightAligned]
  split
  · rfl
  · rename_i hle
    rw [Nat.sub_eq_zero_of_le (Nat.le_of_not_lt hle)]
    exact (String.empty_append _).symm

theorem pyStrPad_eq_leftAligned (w : Nat) (s : String) :
    pyStrPad w s = leftAligned w s := by
  rw [pyStrPad, leftAligned]
  split
  · rfl
  · rename_i hle
    rw [Nat.sub_eq_zero_of_le (Nat.le_of_not_lt hle)]
    exact (String.append_empty _).symm

theorem hexRepAux_length (fuel : Nat) : ∀ m k : Nat, m < fuel →
    m < 16 ^ k → 1 ≤ k → (hexRepAux fuel m).length ≤ k := by
  induction fuel with
  | zero => intro m k hm; omega
  | succ fuel ih =>
      intro m k hm hk h1
      rw [hexRepAux]
      split
      · simpa using h1
      · rename_i hge
        have h16 : 16 ≤ m := Nat.le_of_not_lt hge
        have hk2 : 2 ≤ k := by
          rcases Nat.lt_or_ge k 2 with hlt | hge
          · exfalso
            have hk1 : k = 1 := by omega
            rw [hk1, pow_one] at hk
            omega
          · exact hge
        have hdivfuel : m / 16 < fuel := by
          have := Nat.div_lt_self (by omega : 0 < m) (by omega : 1 < 16)
          omega
        have hdivpow : m / 16 < 16 ^ (k - 1) := by
          rw [Nat.div_lt_iff_lt_mul (by omega : 0 < 16)]
          calc m < 16 ^ k := hk
            _ = 16 ^ (k - 1) * 16 := by
                rw [← Nat.pow_succ]
                congr 1
                omega
        have := ih (m / 16) (k - 1) hdivfuel hdivpow (by omega)
        simp only [List.length_append, List.length_cons, List.length_nil]
        omega

theorem hexRep_length (m k : Nat) (hk : m < 16 ^ k) (h1 : 1 ≤ k) :
    (hexRep m).length ≤ k :=
  hexRepAux_length (m + 1) m k (Nat.lt_succ_self m) hk h1

theorem rightAligned_length (w : Nat) (s : String) (h : s.length ≤ w) :
    (rightAligned w s).length = w := by
  rw [rightAligned, String.length_append, String.length_mk,
    List.length_replicate]
  omega

/-- The single-zero special case of the Flags/Opaque format does not
apply when no sole value equals zero. -/
theorem singleZero_false (vs : List EnumValue)
    (h : ∀ v0, vs = [v0] → v0.value ≠ 0) : singleZero vs = false := by
  match vs with
  | [] => rfl
  | [v0] => simpa [singleZero] using h v0 rfl
  | v0 :: v1 :: r => rfl

/-- Python `#0wx` formatting of a nonnegative value: empty sign, `0x`,
zero padding, digits. -/
theorem pyHashZeroHex_nonneg (w : Nat) (v : Int) (h0 : 0 ≤ v) :
    pyHashZeroHex w v =
      "0x" ++ String.mk (List.replicate
        (w - (2 + (hexRep v.natAbs).length)) '0') ++
        String.mk (hexRep v.natAbs) := by
  rw [pyHashZeroHex]
  simp only [if_neg (by omega : ¬v < 0), String.empty_append,
    String.length_mk, String.length_empty]

/-- Length of the spec-side zero-padded hexadecimal rendering when
the digits fit the byte size. -/
theorem zeroPaddedHex_length (bytes m : Nat)
    (hd : (hexRep m).length ≤ 2 * bytes) :
    (zeroPaddedHex bytes m).length = 2 * bytes + 2 := by
  rw [zeroPaddedHex]
  simp only [String.length_append, String.length_mk,
    List.length_replicate]
  rw [show ("0x" : String).length = 2 from rfl]
  omega

/-- C5: value rendering of a populated IntLike type.  Enum values
render as signed decimals right-aligned to the width of the longest
rendered value; Flags/Opaque render the sole value 0 as plain `0`;
otherwise Flags/Opaque values that fit the type's 32-bit byte size
render as zero-padded hexadecimal of total width `2*size + 2`
including the `0x` prefix. -/
theorem c5_intlike_value_format (t : IntLikeType) (hne : t.values ≠ []) :
    (t.kind = .enum → ∀ v ∈ t.values,
      renderIntLikeValue t v = rightAligned (enumValWidth t)
          (toString v.value) ∧
      (renderIntLikeValue t v).length = enumValWidth t) ∧
    ((t.kind = .flags ∨ t.kind = .opaq) → ∀ v0, t.values = [v0] →
      v0.value = 0 → renderIntLikeValue t v0 = "0") ∧
    ((t.kind = .flags ∨ t.kind = .opaq) →
      (∀ v0, t.values = [v0] → v0.value ≠ 0) → ∀ v ∈ t.values,
      0 ≤ v.value → v.value < (2 : Int) ^ (8 * t.layout.size.1) →
      1 ≤ t.layout.size.1 →
      renderIntLikeValue t v =
          zeroPaddedHex t.layout.size.1 v.value.natAbs ∧
      (renderIntLikeValue t v).length = 2 * t.layout.size.1 + 2) := by
  refine ⟨fun hk v hv => ?_, fun hk v0 hval hzero => ?_,
    fun hk hnot v hv h0 hlt hs => ?_⟩
  · have hflags : ¬(t.kind = .flags ∨ t.kind = .opaq) := by
      rw [hk]; rintro (h | h) <;> cases h
    rw [renderIntLikeValue, if_neg hflags, pyIntPad_eq_rightAligned]
    refine ⟨rfl, rightAligned_length _ _ ?_⟩
    exact foldl_max_mem_le _ _ 0
      (List.mem_map.mpr ⟨v, hv, rfl⟩)
  · rw [renderIntLikeValue, if_pos hk,
      if_pos (by rw [hval, singleZero]; simp [hzero])]
    rw [hzero]
    rfl
  · rw [renderIntLikeValue, if_pos hk, if_neg
      (by rw [singleZero_false t.values hnot]; exact Bool.false_ne_true)]
    have hpow : (16 : Nat) ^ (2 * t.layout.size.1) =
        2 ^ (8 * t.layout.size.1) := by
      rw [show (16 : Nat) = 2 ^ 4 from rfl, ← pow_mul]
      congr 1
      ring
    have hnat : v.value.natAbs < 16 ^ (2 * t.layout.size.1) := by
      have hcast : ((2 ^ (8 * t.layout.size.1) : Nat) : Int) =
          (2 : Int) ^ (8 * t.layout.size.1) := by
        push_cast
        rfl
      rw [hpow]
      have h6 : (v.value.natAbs : Int) = v.value :=
        Int.natAbs_of_nonneg h0
      have h7 : (v.value.natAbs : Int) <
          ((2 ^ (8 * t.layout.size.1) : Nat) : Int) := by
        rw [h6, hcast]
        exact hlt
      exact_mod_cast h7
    have hd : (hexRep v.value.natAbs).length ≤ 2 * t.layout.size.1 :=
      hexRep_length _ _ hnat (by omega)
    have heq : pyHashZeroHex (t.layout.size.1 * 2 + 2) v.value =
        zeroPaddedHex t.layout.size.1 v.value.natAbs := by
      rw [pyHashZeroHex_nonneg _ _ h0, zeroPaddedHex]
      have hcount : t.layout.size.1 * 2 + 2 -
          (2 + (hexRep v.value.natAbs).length) =
          2 * t.layout.size.1 - (hexRep v.value.natAbs).length := by
        omega
      rw [hcount]
    exact ⟨heq, by rw [heq]; exact zeroPaddedHex_length _ _ hd⟩

/-- A sample Flags type with two one-byte values, used as concrete
input for the `#define`-table theorems. -/
def c9Sample : IntLikeType :=
  ⟨"example", "", .flags, .int "uint8" ⟨(1, 1), (1, 1), false⟩,
    [⟨"A", 1⟩, ⟨"BB", 2⟩], ⟨(1, 1), (1, 1), false⟩⟩

/-- Witness for `c5_intlike_value_format`: the hexadecimal case on a
concrete flags value. -/
theorem c5_intlike_value_format_witness :
    renderIntLikeValue c9Sample ⟨"A", 1⟩ = zeroPaddedHex 1 (Int.natAbs 1) ∧
    (renderIntLikeValue c9Sample ⟨"A", 1⟩).length = 2 * 1 + 2 :=
  (c5_intlike_value_format c9Sample (by decide)).2.2 (Or.inl rfl)
    (by intro v0 hv; simp [c9Sample] at hv)
    ⟨"A", 1⟩ (by decide) (by decide) (by decide) (by decide)

/-- C9 counterexample: the emitted `#define` lines render the
constant name left-aligned (padded on the right), not right-aligned,
in the shared column: the claimed right-aligned rendering differs. -/
theorem c9_counterexample_define_alignment :
    intlike_defines ⟨"", none, true⟩ c9Sample =
      ["#define A  0x01", "#define BB 0x02"] ∧
    ["#define A  0x01", "#define BB 0x02"] ≠
      ["#define " ++ rightAligned 2 "A" ++ " " ++ "0x01",
       "#define " ++ rightAligned 2 "BB" ++ " " ++ "0x02"] := by
  constructor
  · decide
  · decide

/-- C9 amended: each emitted `#define` line renders the constant name
left-aligned (padded on the right with spaces) to the shared column
width equal to the longest rendered constant name of the type. -/
theorem c9_amended_define_name_left_aligned (n : CNaming)
    (t : IntLikeType) (h : t.values ≠ []) :
    intlike_defines n t = t.values.map fun v =>
      "#define " ++ leftAligned (defineNameWidth n t) (valname n t v) ++
        " " ++ renderIntLikeValue t v := by
  rw [intlike_defines, if_pos (List.length_pos.mpr h)]
  simp only [pyStrPad_eq_leftAligned]

/-- Witness for `c9_amended_define_name_left_aligned` at the sample
flags type. -/
theorem c9_amended_define_name_left_aligned_witness :
    intlike_defines ⟨"", none, true⟩ c9Sample =
      ["#define A  0x01", "#define BB 0x02"] :=
  (c9_amended_define_name_left_aligned ⟨"", none, true⟩ c9Sample
    (by decide)).trans (by decide)

mutual

/-- A struct member: either a `SimpleStructMember` (name, type, offset
pair) or a `VariantStructMember` (offset pair shared by a list of
arms).  Offsets are `Option`al as in the source, where unresolved
members carry `None` and are skipped by the assert walk.  Modelled
from the spec section 3 (`abi.py` is not in `src/`). -/
inductive StructMember where
  | simple (name : String) (type : CType) (offset : Option (Nat × Nat)) :
      StructMember
  | variantStruct (offset : Option (Nat × Nat))
      (members : List VariantMember) : StructMember

/-- One arm of a variant member: an optional name and the member list
of the arm's struct (the source walks `m.type.members`).  Modelled
from the spec section 3 (`abi.py` is not in `src/`). -/
inductive VariantMember where
  | mk (name : Option String) (members : List StructMember) :
      VariantMember

end

/-- Embedding of `generate_offset_assert` (source lines 206-208). -/
def generate_offset_assert (n : CNaming) (md : Option CType)
    (typeName memberName : String) (offset : Nat × Nat) : List String :=
  generate_layout_assert n md
    ("offsetof(" ++ typeName ++ ", " ++ memberName ++ ")") offset

mutual

/-- The loop of `generate_offset_asserts` (source lines 188-204) over
a member list. -/
def genOffsetsList (n : CNaming) (md : Option CType) (tn : String) :
    List StructMember → String → Nat × Nat → List String
  | [], _, _ => []
  | m :: ms, pre, off =>
      genOffsetsMember n md tn m pre off ++
        genOffsetsList n md tn ms pre off

/-- One iteration of `generate_offset_asserts` on a
Simple/VariantStruct member (source lines 197-204): members without
an offset are skipped; a simple member asserts at the accumulated
offset plus its own; a variant member recurses with the accumulated
offset increased by its own. -/
def genOffsetsMember (n : CNaming) (md : Option CType) (tn : String) :
    StructMember → String → Nat × Nat → List String
  | .simple _ _ none, _, _ => []
  | .simple name _ (some o), pre, off =>
      generate_offset_assert n md tn (pre ++ name)
        (off.1 + o.1, off.2 + o.2)
  | .variantStruct none _, _, _ => []
  | .variantStruct (some o) arms, pre, off =>
      genOffsetsArms n md tn arms pre (off.1 + o.1, off.2 + o.2)

/-- The loop of `generate_offset_asserts` over the arms of a variant
member. -/
def genOffsetsArms (n : CNaming) (md : Option CType) (tn : String) :
    List VariantMember → String → Nat × Nat → List String
  | [], _, _ => []
  | a :: rest, pre, off =>
      genOffsetsArm n md tn a pre off ++
        genOffsetsArms n md tn rest pre off

/-- One iteration of `generate_offset_asserts` on a `VariantMember`
(source lines 191-196): the prefix is extended by the arm name when
present and the walk descends into the arm's members at the same
offset. -/
def genOffsetsArm (n : CNaming) (md : Option CType) (tn : String) :
    VariantMember → String → Nat × Nat → List String
  | ⟨some nm, ms⟩, pre, off => genOffsetsList n md tn ms (pre ++ nm ++ ".") off
  | ⟨none, ms⟩, pre, off => genOffsetsList n md tn ms pre off

end

/-- Embedding of `generate_offset_asserts` as called from `generate_type` (source
line 179): empty prefix, zero offset. -/
def generate_offset_asserts (n : CNaming) (md : Option CType)
    (tn : String) (ms : List StructMember) : List String :=
  genOffsetsList n md tn ms "" (0, 0)

mutual

/-- Spec-side description of the walk: the list of (qualified member
name, absolute offset pair) for every offset-carrying leaf member,
where the absolute offset is the sum of the member's own offset pair
and the offset pairs of all enclosing variant members, component-wise
for both widths. -/
def absLeavesList : List StructMember → String → List (String × (Nat × Nat))
  | [], _ => []
  | m :: ms, pre => absLeavesMember m pre ++ absLeavesList ms pre

/-- Spec-side leaves of one member: a simple member is one leaf at its
own offset; a variant member shifts all leaves of its arms by its
offset pair, component-wise. -/
def absLeavesMember : StructMember → String → List (String × (Nat × Nat))
  | .simple _ _ none, _ => []
  | .simple name _ (some o), pre => [(pre ++ name, o)]
  | .variantStruct none _, _ => []
  | .variantStruct (some o) arms, pre =>
      (absLeavesArms arms pre).map fun q =>
        (q.1, (o.1 + q.2.1, o.2 + q.2.2))

/-- Spec-side leaves of the arms of a variant member. -/
def absLeavesArms : List VariantMember → String → List (String × (Nat × Nat))
  | [], _ => []
  | a :: rest, pre => absLeavesArm a pre ++ absLeavesArms rest pre

/-- Spec-side leaves of one arm: name-qualified when the arm is
named. -/
def absLeavesArm : VariantMember → String → List (String × (Nat × Nat))
  | ⟨some nm, ms⟩, pre => absLeavesList ms (pre ++ nm ++ ".")
  | ⟨none, ms⟩, pre => absLeavesList ms pre

end

mutual

theorem genOffsetsList_eq_absLeaves (n : CNaming) (md : Option CType)
    (tn : String) (ms : List StructMember) (pre : String)
    (off : Nat × Nat) :
    genOffsetsList n md tn ms pre off =
      (absLeavesList ms pre).flatMap fun q =>
        generate_offset_assert n md tn q.1
          (off.1 + q.2.1, off.2 + q.2.2) := by
  match ms with
  | [] => rfl
  | m :: rest =>
      rw [genOffsetsList, absLeavesList, List.flatMap_append,
        genOffsetsMember_eq_absLeaves n md tn m pre off,
        genOffsetsList_eq_absLeaves n md tn rest pre off]

theorem genOffsetsMember_eq_absLeaves (n : CNaming) (md : Option CType)
    (tn : String) (m : StructMember) (pre : String) (off : Nat × Nat) :
    genOffsetsMember n md tn m pre off =
      (absLeavesMember m pre).flatMap fun q =>
        generate_offset_assert n md tn q.1
          (off.1 + q.2.1, off.2 + q.2.2) := by
  match m with
  | .simple name ty none => rfl
  | .simple name ty (some o) =>
      rw [genOffsetsMember, absLeavesMember]
      simp [List.flatMap_cons]
  | .variantStruct none arms => rfl
  | .variantStruct (some o) arms =>
      rw [genOffsetsMember, absLeavesMember,
        List.flatMap_map,
        genOffsetsArms_eq_absLeaves n md tn arms pre
          (off.1 + o.1, off.2 + o.2)]
      simp only [Function.comp]
      congr 1
      funext q
      congr 2 <;> omega

theorem genOffsetsArms_eq_absLeaves (n : CNaming) (md : Option CType)
    (tn : String) (arms : List VariantMember) (pre : String)
    (off : Nat × Nat) :
    genOffsetsArms n md tn arms pre off =
      (absLeavesArms arms pre).flatMap fun q =>
        generate_offset_assert n md tn q.1
          (off.1 + q.2.1, off.2 + q.2.2) := by
  match arms with
  | [] => rfl
  | a :: rest =>
      rw [genOffsetsArms, absLeavesArms, List.flatMap_append,
        genOffsetsArm_eq_absLeaves n md tn a pre off,
        genOffsetsArms_eq_absLeaves n md tn rest pre off]

theorem genOffsetsArm_eq_absLeaves (n : CNaming) (md : Option CType)
    (tn : String) (a : VariantMember) (pre : String) (off : Nat × Nat) :
    genOffsetsArm n md tn a pre off =
      (absLeavesArm a pre).flatMap fun q =>
        generate_offset_assert n md tn q.1
          (off.1 + q.2.1, off.2 + q.2.2) := by
  match a with
  | ⟨some nm, ms⟩ =>
      rw [genOffsetsArm, absLeavesArm]
      exact genOffsetsList_eq_absLeaves n md tn ms (pre ++ nm ++ ".") off
  | ⟨none, ms⟩ =>
      rw [genOffsetsArm, absLeavesArm]
      exact genOffsetsList_eq_absLeaves n md tn ms pre off

end

/-- C6: every offsetof assertion emitted by the member walk sits at
the component-wise sum of the enclosing variant offsets and the leaf
member's own offset pair.  In particular the full walk from
`generate_type` equals the spec-side absolute-leaf rendering, and a
leaf at `(f32, f64)` inside a variant at `(o32, o64)` is asserted at
`(o32 + f32, o64 + f64)`, never at its local offset alone. -/
theorem c6_variant_offset_propagation (n : CNaming) (md : Option CType)
    (tn : String) (ms : List StructMember) :
    generate_offset_asserts n md tn ms =
      (absLeavesList ms "").flatMap fun q =>
        generate_offset_assert n md tn q.1 q.2 := by
  rw [generate_offset_asserts, genOffsetsList_eq_absLeaves]
  simp only [Nat.zero_add]

/-- A syscall input or output member (name and type). -/
structure Param where
  name : String
  type : CType
deriving DecidableEq, Repr

/-- A syscall record: name, call number, flags and the two member
lists.  Modelled from the spec section 3 (`abi.py` is not in
`src/`). -/
structure Syscall where
  name : String
  number : Nat
  machineDep : Bool
  noreturn : Bool
  input : List Param
  output : List Param
deriving DecidableEq, Repr

/-- The per-architecture configuration a `CSyscallsImplGenerator`
subclass supplies (source lines 369-404). -/
structure Backend where
  syscall_num_register : String
  input_registers : List String
  output_registers : List String
  errno_register : String
  clobbers : String
  register_t : CType
  okay_t : CType
  asm : String
  asm_check : String
deriving DecidableEq, Repr

/-- One printed line of `generate_syscall_body` (source lines
277-355), as a constructor carrying the data that varies; the exact
text is recovered by `renderBodyLine`. -/
inductive BodyLine where
  | openBrace
  | declReg (reg : String) (value : Option String)
  | declOkay
  | asmVolatile
  | asmLine (s : String)
  | operandOkay
  | operandOut (first : Bool) (reg : String)
  | operandErr (first : Bool) (reg : String)
  | operandNone
  | inputNum (reg : String)
  | inputReg (reg : String)
  | clobberLine
  | ifOkay
  | storeOut (name : String) (castExpr : String)
  | retZero
  | closeIf
  | loopForever
  | retErrno (reg : String)
  | closeBrace
deriving DecidableEq, Repr

/-- The exact text of each body line as printed by the source
(`\x7b`/`\x7d` denote the braces). -/
def renderBodyLine (n : CNaming) (b : Backend) : BodyLine → String
  | .openBrace => " \x7b"
  | .declReg r v =>
      "\tregister " ++ vardecl n b.register_t ("reg_" ++ r) false ++
        " asm(\"" ++ r ++ "\")" ++
        (match v with | some s => " = " ++ s | none => "") ++ ";"
  | .declOkay => "\tregister " ++ vardecl n b.okay_t "okay" false ++ ";"
  | .asmVolatile => "\tasm volatile ("
  | .asmLine s => s
  | .operandOkay => "\t\t: \"=r\"(okay)"
  | .operandOut f r =>
      "\t\t" ++ (if f then ":" else ",") ++ " \"=r\"(reg_" ++ r ++ ")"
  | .operandErr f r =>
      "\t\t" ++ (if f then ":" else ",") ++ " \"=r\"(reg_" ++ r ++ ")"
  | .operandNone => "\t\t:"
  | .inputNum r => "\t\t: \"r\"(reg_" ++ r ++ ")"
  | .inputReg r => "\t\t, \"r\"(reg_" ++ r ++ ")"
  | .clobberLine => "\t\t: " ++ b.clobbers ++ ");"
  | .ifOkay => "\tif (okay) \x7b"
  | .storeOut name v => "\t\t*" ++ name ++ " = " ++ v ++ ";"
  | .retZero => "\t\treturn 0;"
  | .closeIf => "\t\x7d"
  | .loopForever => "\tfor (;;);"
  | .retErrno r => "\treturn reg_" ++ r ++ ";"
  | .closeBrace => "\x7d"

/-- The state of the body generation: the `defined_regs` set (kept as
an insertion-ordered list) and the register-declaration lines printed
so far. -/
structure RegSt where
  defined : List String
  lines : List BodyLine
deriving DecidableEq, Repr

/-- Embedding of `define_reg` (source lines 284-296): without a value the
declaration is skipped when the register is already defined; with a
value the `assert` fires (here: `GenError.assertion`) when it is. -/
def defineReg (st : RegSt) (reg : String) (value : Option String) :
    Except GenError RegSt :=
  match value with
  | none =>
      if reg ∈ st.defined then .ok st
      else .ok ⟨st.defined ++ [reg], st.lines ++ [.declReg reg none]⟩
  | some v =>
      if reg ∈ st.defined then .error .assertion
      else .ok ⟨st.defined ++ [reg], st.lines ++ [.declReg reg (some v)]⟩

/-- The input loop of `generate_syscall_body` (source lines 300-302):
`define_reg(input_registers[i], ccast(...))` over the enumerated input
members. -/
def genInputs (n : CNaming) (b : Backend) :
    List (Nat × Param) → RegSt → Except GenError RegSt
  | [], st => .ok st
  | (i, p) :: rest, st =>
      match b.input_registers[i]? with
      | none => .error .inputIndex
      | some reg =>
          match ccast n p.type b.register_t p.name with
          | .error e => .error e
          | .ok v =>
              match defineReg st reg (some v) with
              | .error e => .error e
              | .ok st2 => genInputs n b rest st2

/-- The output loop of `generate_syscall_body` (source lines 304-305):
`define_reg(output_registers[i])` over the output indices. -/
def genOutputs (b : Backend) : List Nat → RegSt → Except GenError RegSt
  | [], st => .ok st
  | i :: rest, st =>
      match b.output_registers[i]? with
      | none => .error .outputIndex
      | some reg =>
          match defineReg st reg none with
          | .error e => .error e
          | .ok st2 => genOutputs b rest st2

/-- The output-operand loop (source lines 322-325), threading the
`first` flag. -/
def outOperands (b : Backend) :
    List Nat → Bool → Except GenError (List BodyLine × Bool)
  | [], first => .ok ([], first)
  | i :: rest, first =>
      match b.output_registers[i]? with
      | none => .error .outputIndex
      | some reg =>
          match outOperands b rest false with
          | .error e => .error e
          | .ok (ls, f) => .ok (.operandOut first reg :: ls, f)

/-- The input-operand loop (source lines 336-337). -/
def inOperands (b : Backend) : List Nat → Except GenError (List BodyLine)
  | [] => .ok []
  | i :: rest =>
      match b.input_registers[i]? with
      | none => .error .inputIndex
      | some reg =>
          match inOperands b rest with
          | .error e => .error e
          | .ok ls => .ok (.inputReg reg :: ls)

/-- The write-back loop (source lines 342-346): each output member is
stored through its pointer parameter after casting the register value
back to the member type. -/
def storeOuts (n : CNaming) (b : Backend) :
    List (Nat × Param) → Except GenError (List BodyLine)
  | [] => .ok []
  | (i, p) :: rest =>
      match b.output_registers[i]? with
      | none => .error .outputIndex
      | some reg =>
          match ccast n b.register_t p.type ("reg_" ++ reg) with
          | .error e => .error e
          | .ok v =>
              match storeOuts n b rest with
              | .error e => .error e
              | .ok ls => .ok (.storeOut p.name v :: ls)

/-- The fixed-segment assembly of the body lines in print order
(source lines 277-355), given the results of the fallible loops. -/
def assemble (b : Backend) (sc : Syscall) (st4 : RegSt)
    (outOps : List BodyLine) (f1 : Bool) (inOps stores : List BodyLine) :
    List BodyLine :=
  let check_okay : Bool := decide (0 < sc.output.length)
  let errCond : Bool :=
    !sc.noreturn &&
      !((b.output_registers.take sc.output.length).contains
        b.errno_register)
  let errOps : List BodyLine :=
    if errCond then [.operandErr f1 b.errno_register] else []
  let f2 : Bool := if errCond then false else f1
  [BodyLine.openBrace] ++ st4.lines ++
    (if check_okay then [BodyLine.declOkay] else []) ++
    [BodyLine.asmVolatile, BodyLine.asmLine b.asm] ++
    (if check_okay then [BodyLine.asmLine b.asm_check] else []) ++
    (if check_okay then [BodyLine.operandOkay] else []) ++
    outOps ++ errOps ++
    (if f2 then [BodyLine.operandNone] else []) ++
    [BodyLine.inputNum b.syscall_num_register] ++ inOps ++
    [BodyLine.clobberLine] ++
    (if check_okay then
      [BodyLine.ifOkay] ++ stores ++ [BodyLine.retZero, BodyLine.closeIf]
     else []) ++
    (if sc.noreturn then [BodyLine.loopForever]
     else [BodyLine.retErrno b.errno_register]) ++
    [BodyLine.closeBrace]

/-- Embedding of `CSyscallsImplGenerator.generate_syscall_body` (source lines
277-355): declare the number register, the input registers (with
casts), the output registers, the errno register, then emit the asm
block with its operand lists and the write-back epilogue. -/
def generate_syscall_body (n : CNaming) (b : Backend) (sc : Syscall) :
    Except GenError (List BodyLine) := do
  let st1 ← defineReg ⟨[], []⟩ b.syscall_num_register
    (some (toString sc.number))
  let st2 ← genInputs n b sc.input.enum st1
  let st3 ← genOutputs b (List.range sc.output.length) st2
  let st4 ← defineReg st3 b.errno_register none
  let outRes ← outOperands b (List.range sc.output.length)
    (!decide (0 < sc.output.length))
  let inOps ← inOperands b (List.range sc.input.length)
  let stores ← storeOuts n b sc.output.enum
  pure (assemble b sc st4 outRes.1 outRes.2 inOps stores)

/-- The register name declared by a body line, when it is a register
declaration. -/
def declRegOf : BodyLine → Option String
  | .declReg r _ => some r
  | _ => none

/-- The set (list) of register names declared in a body. -/
def declaredRegs (ls : List BodyLine) : List String :=
  ls.filterMap declRegOf

/-- The successfully generated body lines, or `[]` on a fatal
error. -/
def bodyLines (n : CNaming) (b : Backend) (sc : Syscall) :
    List BodyLine :=
  match generate_syscall_body n b sc with
  | .ok ls => ls
  | .error _ => []

/-- Whether generation succeeded. -/
def genOk {α : Type} : Except GenError α → Bool
  | .ok _ => true
  | .error _ => false

/-- Whether a body contains the extra writable operand binding the
error register. -/
def hasErrOperand (b : Backend) (ls : List BodyLine) : Bool :=
  ls.any fun l =>
    match l with
    | .operandErr _ r => r == b.errno_register
    | _ => false

/-- Whether a body contains any C `return` statement. -/
def hasRet (ls : List BodyLine) : Bool :=
  ls.any fun l =>
    match l with
    | .retZero => true
    | .retErrno _ => true
    | _ => false

/-- Whether generation either succeeded or failed with the cast-size
error. -/
def castOnly : Except GenError (List BodyLine) → Bool
  | .ok _ => true
  | .error (.cast _ _) => true
  | .error _ => false

/-- Embedding of the int_types entry uint64 (`abi.py` is not in `src/`; modelled from
the spec: an 8-byte integer type). -/
def uint64T : CType := .int "uint64" ⟨(8, 8), (8, 8), false⟩

/-- Embedding of the int_types entry char (`abi.py` is not in `src/`; modelled from the
spec: a 1-byte integer type). -/
def charT : CType := .int "char" ⟨(1, 1), (1, 1), false⟩

/-- Embedding of `CSyscallsX86_64Generator` (source lines 369-382). -/
def x86_64Backend : Backend :=
  ⟨"rax", ["rdi", "rsi", "rdx", "r10", "r8", "r9"], ["rax", "rdx"],
    "rax",
    "\"memory\", \"rcx\", \"rdx\", \"r8\", \"r9\", \"r10\", \"r11\"",
    uint64T, charT,
    "\t\t\"\\tsyscall\\n\"", "\t\t\"\\tsetnc %0\\n\""⟩

/-- Embedding of `CSyscallsAarch64Generator` (source lines 385-404). -/
def aarch64Backend : Backend :=
  ⟨"x8", ["x0", "x1", "x2", "x3", "x4", "x5"], ["x0", "x1"], "x0",
    "\"memory\"\n\t\t, \"x0\", \"x1\", \"x2\", \"x3\", \"x4\", \"x5\", \"x6\", \"x7\"\n\t\t, \"x8\", \"x9\", \"x10\", \"x11\", \"x12\", \"x13\", \"x14\", \"x15\"\n\t\t, \"x16\", \"x17\", \"x18\"\n\t\t, \"d0\", \"d1\", \"d2\", \"d3\", \"d4\", \"d5\", \"d6\", \"d7\"",
    uint64T, uint64T,
    "\t\t\"\\tsvc 0\\n\"", "\t\t\"\\tcset %0, cc\\n\""⟩

theorem exceptBind_ok {α β : Type} (x : Except GenError α)
    (f : α → Except GenError β) (y : β) :
    (x >>= f) = .ok y ↔ ∃ a, x = .ok a ∧ f a = .ok y := by
  cases x <;> simp [Bind.bind, Except.bind]

theorem exceptBind_error {α β : Type} (x : Except GenError α)
    (f : α → Except GenError β) (e : GenError) :
    (x >>= f) = .error e ↔
      x = .error e ∨ ∃ a, x = .ok a ∧ f a = .error e := by
  cases x <;> simp [Bind.bind, Except.bind]

/-- Every line printed by `define_reg` is a register declaration. -/
def allDecl (ls : List BodyLine) : Prop :=
  ∀ l ∈ ls, ∃ r w, l = BodyLine.declReg r w

theorem defineReg_some_ok {st : RegSt} {reg v : String} {st' : RegSt}
    (h : defineReg st reg (some v) = .ok st') :
    reg ∉ st.defined ∧
      st' = ⟨st.defined ++ [reg], st.lines ++ [.declReg reg (some v)]⟩ := by
  rw [defineReg] at h
  split at h
  · exact absurd h (by simp)
  · rename_i hmem
    exact ⟨hmem, (Except.ok.inj h).symm⟩

theorem defineReg_some_fresh (st : RegSt) (reg v : String)
    (h : reg ∉ st.defined) :
    defineReg st reg (some v) =
      .ok ⟨st.defined ++ [reg], st.lines ++ [.declReg reg (some v)]⟩ := by
  rw [defineReg, if_neg h]

theorem defineReg_none_ok (st : RegSt) (reg : String) :
    defineReg st reg none =
      .ok (if reg ∈ st.defined then st
        else ⟨st.defined ++ [reg], st.lines ++ [.declReg reg none]⟩) := by
  rw [defineReg]
  split <;> rename_i h <;> simp [h]

theorem declaredRegs_append (l1 l2 : List BodyLine) :
    declaredRegs (l1 ++ l2) = declaredRegs l1 ++ declaredRegs l2 :=
  List.filterMap_append l1 l2 declRegOf

theorem defineReg_some_facts {st : RegSt} {reg v : String} {st' : RegSt}
    (h : defineReg st reg (some v) = .ok st') :
    st'.defined = st.defined ++ [reg] ∧ reg ∉ st.defined ∧
    (st.defined.Nodup → st'.defined.Nodup) ∧
    (st.defined = declaredRegs st.lines →
      st'.defined = declaredRegs st'.lines) ∧
    (allDecl st.lines → allDecl st'.lines) := by
  obtain ⟨hmem, rfl⟩ := defineReg_some_ok h
  refine ⟨rfl, hmem, fun hnd => ?_, fun hinv => ?_, fun hdecl => ?_⟩
  · simp [List.nodup_append, hnd, hmem]
  · simp [declaredRegs_append, hinv, declaredRegs, declRegOf]
  · intro l hl
    rcases List.mem_append.mp hl with hl | hl
    · exact hdecl l hl
    · exact ⟨reg, some v, List.mem_singleton.mp hl⟩

theorem defineReg_none_facts (st : RegSt) (reg : String) {st' : RegSt}
    (h : defineReg st reg none = .ok st') :
    (∀ x, x ∈ st'.defined ↔ x ∈ st.defined ∨ x = reg) ∧
    (st.defined.Nodup → st'.defined.Nodup) ∧
    (st.defined = declaredRegs st.lines →
      st'.defined = declaredRegs st'.lines) ∧
    (allDecl st.lines → allDecl st'.lines) := by
  rw [defineReg_none_ok] at h
  have hst := Except.ok.inj h
  subst hst
  split
  · rename_i hmem
    refine ⟨fun x => ?_, id, id, id⟩
    constructor
    · exact fun hx => Or.inl hx
    · rintro (hx | rfl)
      · exact hx
      · exact hmem
  · rename_i hmem
    refine ⟨fun x => ?_, fun hnd => ?_, fun hinv => ?_, fun hdecl => ?_⟩
    · simp
    · simp [List.nodup_append, hnd, hmem]
    · simp [declaredRegs_append, hinv, declaredRegs, declRegOf]
    · intro l hl
      rcases List.mem_append.mp hl with hl | hl
      · exact hdecl l hl
      · exact ⟨reg, none, List.mem_singleton.mp hl⟩

theorem genInputs_ok_facts (n : CNaming) (b : Backend) :
    ∀ (ps : List Param) (i : Nat) (st st' : RegSt),
    genInputs n b (List.enumFrom i ps) st = .ok st' →
    st'.defined = st.defined ++
      (b.input_registers.drop i).take ps.length ∧
    (st.defined.Nodup → st'.defined.Nodup) ∧
    (st.defined = declaredRegs st.lines →
      st'.defined = declaredRegs st'.lines) ∧
    (allDecl st.lines → allDecl st'.lines) := by
  intro ps
  induction ps with
  | nil =>
      intro i st st' h
      rw [List.enumFrom_nil, genInputs] at h
      have hst := Except.ok.inj h
      subst hst
      simp
  | cons p rest ih =>
      intro i st st' h
      rw [List.enumFrom_cons, genInputs] at h
      split at h
      · exact Except.noConfusion h
      · rename_i reg hreg
        split at h
        · exact Except.noConfusion h
        · rename_i v hcast
          split at h
          · exact Except.noConfusion h
          · rename_i st2 hdef
            obtain ⟨hdefined, hfresh, hnd, hinv, hdecl⟩ :=
              defineReg_some_facts hdef
            obtain ⟨ih1, ih2, ih3, ih4⟩ := ih (i + 1) st2 st' h
            have hdrop : b.input_registers.drop i =
                reg :: b.input_registers.drop (i + 1) := by
              rw [List.getElem?_eq_some] at hreg
              obtain ⟨hlt, hx⟩ := hreg
              rw [List.drop_eq_getElem_cons hlt, hx]
            refine ⟨?_, fun hnd0 => ih2 (hnd hnd0),
              fun hi => ih3 (hinv hi), fun hd => ih4 (hdecl hd)⟩
            rw [ih1, hdefined, hdrop, List.length_cons,
              List.take_succ_cons, List.append_assoc,
              List.singleton_append]

theorem genOutputs_ok_facts (b : Backend) :
    ∀ (k i : Nat) (st st' : RegSt),
    genOutputs b (List.range' i k) st = .ok st' →
    (∀ x, x ∈ st'.defined ↔ x ∈ st.defined ∨
        x ∈ (b.output_registers.drop i).take k) ∧
    (st.defined.Nodup → st'.defined.Nodup) ∧
    (st.defined = declaredRegs st.lines →
      st'.defined = declaredRegs st'.lines) ∧
    (allDecl st.lines → allDecl st'.lines) := by
  intro k
  induction k with
  | zero =>
      intro i st st' h
      rw [show List.range' i 0 = [] from rfl, genOutputs] at h
      have hst := Except.ok.inj h
      subst hst
      simp
  | succ k ih =>
      intro i st st' h
      rw [List.range'_succ i k 1, genOutputs] at h
      split at h
      · exact Except.noConfusion h
      · rename_i reg hreg
        split at h
        · exact Except.noConfusion h
        · rename_i st2 hdef
          obtain ⟨hmem2, hnd, hinv, hdecl⟩ := defineReg_none_facts st reg hdef
          obtain ⟨ih1, ih2, ih3, ih4⟩ := ih (i + 1) st2 st' h
          have hdrop : b.output_registers.drop i =
              reg :: b.output_registers.drop (i + 1) := by
            rw [List.getElem?_eq_some] at hreg
            obtain ⟨hlt, hx⟩ := hreg
            rw [List.drop_eq_getElem_cons hlt, hx]
          refine ⟨fun x => ?_, fun hnd0 => ih2 (hnd hnd0),
            fun hi => ih3 (hinv hi), fun hd => ih4 (hdecl hd)⟩
          rw [ih1 x, hmem2 x, hdrop, List.take_succ_cons,
            List.mem_cons]
          tauto

theorem outOperands_ok_shape (b : Backend) :
    ∀ (ks : List Nat) (f0 : Bool) (res : List BodyLine × Bool),
    outOperands b ks f0 = .ok res →
    ∀ l ∈ res.1, ∃ ff r, l = BodyLine.operandOut ff r := by
  intro ks
  induction ks with
  | nil =>
      intro f0 res h
      have := Except.ok.inj h
      subst this
      simp
  | cons i rest ih =>
      intro f0 res h
      rw [outOperands] at h
      split at h
      · exact Except.noConfusion h
      · rename_i reg hreg
        split at h
        · exact Except.noConfusion h
        · rename_i ls2 f2 hrec
          have := Except.ok.inj h
          subst this
          intro l hl
          rcases List.mem_cons.mp hl with rfl | hl
          · exact ⟨f0, reg, rfl⟩
          · exact ih false (ls2, f2) hrec l hl

theorem inOperands_ok_shape (b : Backend) :
    ∀ (ks : List Nat) (ls : List BodyLine),
    inOperands b ks = .ok ls →
    ∀ l ∈ ls, ∃ r, l = BodyLine.inputReg r := by
  intro ks
  induction ks with
  | nil =>
      intro ls h
      have := Except.ok.inj h
      subst this
      simp
  | cons i rest ih =>
      intro ls h
      rw [inOperands] at h
      split at h
      · exact Except.noConfusion h
      · rename_i reg hreg
        split at h
        · exact Except.noConfusion h
        · rename_i ls2 hrec
          have := Except.ok.inj h
          subst this
          intro l hl
          rcases List.mem_cons.mp hl with rfl | hl
          · exact ⟨reg, rfl⟩
          · exact ih ls2 hrec l hl

theorem storeOuts_ok_shape (n : CNaming) (b : Backend) :
    ∀ (ps : List (Nat × Param)) (ls : List BodyLine),
    storeOuts n b ps = .ok ls →
    ∀ l ∈ ls, ∃ nm v, l = BodyLine.storeOut nm v := by
  intro ps
  induction ps with
  | nil =>
      intro ls h
      have := Except.ok.inj h
      subst this
      simp
  | cons ip rest ih =>
      intro ls h
      obtain ⟨i, p⟩ := ip
      rw [storeOuts] at h
      split at h
      · exact Except.noConfusion h
      · rename_i reg hreg
        split at h
        · exact Except.noConfusion h
        · rename_i v hcast
          split at h
          · exact Except.noConfusion h
          · rename_i ls2 hrec
            have := Except.ok.inj h
            subst this
            intro l hl
            rcases List.mem_cons.mp hl with rfl | hl
            · exact ⟨p.name, v, rfl⟩
            · exact ih ls2 hrec l hl

theorem generate_ok_inv (n : CNaming) (b : Backend) (sc : Syscall)
    (lines : List BodyLine)
    (h : generate_syscall_body n b sc = .ok lines) :
    ∃ (st1 st2 st3 st4 : RegSt) (outRes : List BodyLine × Bool)
      (inOps stores : List BodyLine),
      defineReg ⟨[], []⟩ b.syscall_num_register
        (some (toString sc.number)) = .ok st1 ∧
      genInputs n b sc.input.enum st1 = .ok st2 ∧
      genOutputs b (List.range sc.output.length) st2 = .ok st3 ∧
      defineReg st3 b.errno_register none = .ok st4 ∧
      outOperands b (List.range sc.output.length)
        (!decide (0 < sc.output.length)) = .ok outRes ∧
      inOperands b (List.range sc.input.length) = .ok inOps ∧
      storeOuts n b sc.output.enum = .ok stores ∧
      lines = assemble b sc st4 outRes.1 outRes.2 inOps stores := by
  rw [generate_syscall_body] at h
  rw [exceptBind_ok] at h
  obtain ⟨st1, h1, h⟩ := h
  rw [exceptBind_ok] at h
  obtain ⟨st2, h2, h⟩ := h
  rw [exceptBind_ok] at h
  obtain ⟨st3, h3, h⟩ := h
  rw [exceptBind_ok] at h
  obtain ⟨st4, h4, h⟩ := h
  rw [exceptBind_ok] at h
  obtain ⟨outRes, h5, h⟩ := h
  rw [exceptBind_ok] at h
  obtain ⟨inOps, h6, h⟩ := h
  rw [exceptBind_ok] at h
  obtain ⟨stores, h7, h⟩ := h
  exact ⟨st1, st2, st3, st4, outRes, inOps, stores, h1, h2, h3, h4,
    h5, h6, h7, (Except.ok.inj h).symm⟩

theorem declaredRegs_assemble (b : Backend) (sc : Syscall) (st4 : RegSt)
    (outOps : List BodyLine) (f1 : Bool) (inOps stores : List BodyLine)
    (ho : ∀ l ∈ outOps, declRegOf l = none)
    (hi : ∀ l ∈ inOps, declRegOf l = none)
    (hs : ∀ l ∈ stores, declRegOf l = none) :
    declaredRegs (assemble b sc st4 outOps f1 inOps stores) =
      declaredRegs st4.lines := by
  rw [assemble, declaredRegs, declaredRegs]
  simp only [List.filterMap_append, List.filterMap_cons,
    List.filterMap_nil, declRegOf,
    List.filterMap_eq_nil_iff.mpr ho,
    List.filterMap_eq_nil_iff.mpr hi,
    List.filterMap_eq_nil_iff.mpr hs,
    apply_ite (List.filterMap declRegOf)]
  simp

/-- The consolidated facts about a successful body generation used by
the register-set, no-return and operand claims. -/
theorem generate_st4_facts (n : CNaming) (b : Backend) (sc : Syscall)
    (lines : List BodyLine)
    (h : generate_syscall_body n b sc = .ok lines) :
    ∃ (st4 : RegSt) (outOps : List BodyLine) (f1 : Bool)
      (inOps stores : List BodyLine),
      lines = assemble b sc st4 outOps f1 inOps stores ∧
      st4.defined = declaredRegs st4.lines ∧
      st4.defined.Nodup ∧ allDecl st4.lines ∧
      (∀ x, x ∈ st4.defined ↔ x = b.syscall_num_register ∨
        x ∈ b.input_registers.take sc.input.length ∨
        x ∈ b.output_registers.take sc.output.length ∨
        x = b.errno_register) ∧
      (∀ l ∈ outOps, ∃ ff r, l = BodyLine.operandOut ff r) ∧
      (∀ l ∈ inOps, ∃ r, l = BodyLine.inputReg r) ∧
      (∀ l ∈ stores, ∃ nm v, l = BodyLine.storeOut nm v) ∧
      (sc.output = [] → outOps = [] ∧ f1 = true ∧ stores = []) := by
  obtain ⟨st1, st2, st3, st4, outRes, inOps, stores, h1, h2, h3, h4,
    h5, h6, h7, hass⟩ := generate_ok_inv n b sc lines h
  obtain ⟨hfresh1, hst1⟩ := defineReg_some_ok h1
  rw [List.enum_eq_enumFrom] at h2
  obtain ⟨h2a, h2b, h2c, h2d⟩ :=
    genInputs_ok_facts n b sc.input 0 st1 st2 h2
  rw [List.range_eq_range'] at h3
  obtain ⟨h3a, h3b, h3c, h3d⟩ :=
    genOutputs_ok_facts b sc.output.length 0 st2 st3 h3
  obtain ⟨h4a, h4b, h4c, h4d⟩ := defineReg_none_facts st3
    b.errno_register h4
  have hst1d : st1.defined = [b.syscall_num_register] := by
    rw [hst1]
    rfl
  have hst1l : st1.lines =
      [.declReg b.syscall_num_register (some (toString sc.number))] := by
    rw [hst1]
    rfl
  have hinv1 : st1.defined = declaredRegs st1.lines := by
    rw [hst1d, hst1l]
    rfl
  have hdecl1 : allDecl st1.lines := by
    rw [hst1l]
    intro l hl
    exact ⟨_, _, List.mem_singleton.mp hl⟩
  have hnd1 : st1.defined.Nodup := by
    rw [hst1d]
    exact List.nodup_singleton _
  have hst2a : st2.defined = b.syscall_num_register ::
      b.input_registers.take sc.input.length := by
    rw [h2a, hst1d, List.drop_zero, List.singleton_append]
  refine ⟨st4, outRes.1, outRes.2, inOps, stores,
    (by rw [hass]), h4c (h3c (h2c hinv1)), h4b (h3b (h2b hnd1)),
    h4d (h3d (h2d hdecl1)), fun x => ?_,
    outOperands_ok_shape b _ _ _ h5,
    inOperands_ok_shape b _ _ h6, ?_, fun hout => ?_⟩
  · rw [h4a x, h3a x, hst2a, List.drop_zero, List.mem_cons]
    tauto
  · intro l hl
    rw [List.enum_eq_enumFrom] at h7
    exact storeOuts_ok_shape n b _ _ h7 l hl
  · rw [hout] at h5 h7
    simp only [List.length_nil, List.range_zero, List.enum_nil] at h5 h7
    rw [outOperands] at h5
    rw [storeOuts] at h7
    have h5' := Except.ok.inj h5
    have h7' := Except.ok.inj h7
    refine ⟨?_, ?_, h7'.symm⟩
    · rw [← h5']
    · rw [← h5']
      simp [hout]

/-- C2: for every successfully lowered syscall, the set of register
variables declared in the generated body is exactly the union of the
syscall-number register, the first N input registers, the first M
output registers and the error register, with no register declared
twice. -/
theorem c2_syscall_register_set (n : CNaming) (b : Backend)
    (sc : Syscall) (lines : List BodyLine)
    (h : generate_syscall_body n b sc = .ok lines) :
    (declaredRegs lines).Nodup ∧
    (declaredRegs lines).toFinset =
      {b.syscall_num_register} ∪
        (b.input_registers.take sc.input.length).toFinset ∪
        (b.output_registers.take sc.output.length).toFinset ∪
        {b.errno_register} := by
  obtain ⟨st4, outOps, f1, inOps, stores, hass, hinv, hnd, hdecl, hmem,
    ho, hi, hs, _⟩ := generate_st4_facts n b sc lines h
  have ho' : ∀ l ∈ outOps, declRegOf l = none := fun l hl => by
    obtain ⟨ff, r, rfl⟩ := ho l hl
    rfl
  have hi' : ∀ l ∈ inOps, declRegOf l = none := fun l hl => by
    obtain ⟨r, rfl⟩ := hi l hl
    rfl
  have hs' : ∀ l ∈ stores, declRegOf l = none := fun l hl => by
    obtain ⟨nm, v, rfl⟩ := hs l hl
    rfl
  have hdr : declaredRegs lines = st4.defined := by
    rw [hass,
      declaredRegs_assemble b sc st4 outOps f1 inOps stores ho' hi' hs',
      ← hinv]
  constructor
  · rw [hdr]
    exact hnd
  · rw [hdr]
    ext x
    simp only [List.mem_toFinset, Finset.mem_union, Finset.mem_singleton]
    rw [hmem x]
    tauto

theorem hasErrOperand_assemble (b : Backend) (sc : Syscall)
    (st4 : RegSt) (outOps : List BodyLine) (f1 : Bool)
    (inOps stores : List BodyLine)
    (hdecl : allDecl st4.lines)
    (ho : ∀ l ∈ outOps, ∃ ff r, l = BodyLine.operandOut ff r)
    (hi : ∀ l ∈ inOps, ∃ r, l = BodyLine.inputReg r)
    (hs : ∀ l ∈ stores, ∃ nm v, l = BodyLine.storeOut nm v) :
    hasErrOperand b (assemble b sc st4 outOps f1 inOps stores) =
      (!sc.noreturn &&
        !((b.output_registers.take sc.output.length).contains
          b.errno_register)) := by
  have hf : ∀ (ls : List BodyLine),
      (∀ l ∈ ls, ∃ ff r, l = BodyLine.operandOut ff r) →
      (ls.any fun l =>
        match l with
        | BodyLine.operandErr _ r => r == b.errno_register
        | _ => false) = false := by
    intro ls hls
    rw [List.any_eq_false]
    intro l hl
    obtain ⟨ff, r, rfl⟩ := hls l hl
    exact Bool.false_ne_true
  have h4 : (st4.lines.any fun l =>
      match l with
      | BodyLine.operandErr _ r => r == b.errno_register
      | _ => false) = false := by
    rw [List.any_eq_false]
    intro l hl
    obtain ⟨r, w, rfl⟩ := hdecl l hl
    exact Bool.false_ne_true
  have hio : (inOps.any fun l =>
      match l with
      | BodyLine.operandErr _ r => r == b.errno_register
      | _ => false) = false := by
    rw [List.any_eq_false]
    intro l hl
    obtain ⟨r, rfl⟩ := hi l hl
    exact Bool.false_ne_true
  have hso : (stores.any fun l =>
      match l with
      | BodyLine.operandErr _ r => r == b.errno_register
      | _ => false) = false := by
    rw [List.any_eq_false]
    intro l hl
    obtain ⟨nm, v, rfl⟩ := hs l hl
    exact Bool.false_ne_true
  rw [assemble, hasErrOperand]
  simp only [List.any_append, h4, hf outOps ho, hio, hso,
    apply_ite (List.any ·
      (fun l =>
        match l with
        | BodyLine.operandErr _ r => r == b.errno_register
        | _ => false)),
    List.any_cons, List.any_nil]
  cases hb : (!sc.noreturn &&
      !((b.output_registers.take sc.output.length).contains
        b.errno_register)) <;> simp

/-- C8: the error register is added as an extra writable output
operand exactly when the syscall is not noreturn and the error
register is not already among the first M output registers; in
particular a noreturn syscall never gets the extra operand. -/
theorem c8_errno_operand_condition (n : CNaming) (b : Backend)
    (sc : Syscall) (lines : List BodyLine)
    (h : generate_syscall_body n b sc = .ok lines) :
    hasErrOperand b lines =
      (!sc.noreturn &&
        !((b.output_registers.take sc.output.length).contains
          b.errno_register)) := by
  obtain ⟨st4, outOps, f1, inOps, stores, hass, _, _, hdecl, _,
    ho, hi, hs, _⟩ := generate_st4_facts n b sc lines h
  rw [hass]
  exact hasErrOperand_assemble b sc st4 outOps f1 inOps stores
    hdecl ho hi hs

theorem assemble_noreturn_empty (b : Backend) (sc : Syscall)
    (st4 : RegSt) (inOps : List BodyLine) (hnr : sc.noreturn = true)
    (hout : sc.output = []) :
    assemble b sc st4 [] true inOps [] =
      [BodyLine.openBrace] ++ st4.lines ++
        [BodyLine.asmVolatile, BodyLine.asmLine b.asm,
          BodyLine.operandNone,
          BodyLine.inputNum b.syscall_num_register] ++ inOps ++
        [BodyLine.clobberLine, BodyLine.loopForever,
          BodyLine.closeBrace] := by
  rw [assemble]
  simp [hnr, hout]

/-- C4 amended: a noreturn syscall with no output members never emits
a return statement, never declares the extra okay/status variable, and
always ends in the infinite loop whose emitted text is
`\tfor (;;);`. -/
theorem c4_amended_noreturn_body (n : CNaming) (b : Backend)
    (sc : Syscall) (lines : List BodyLine)
    (h : generate_syscall_body n b sc = .ok lines)
    (hnr : sc.noreturn = true) (hout : sc.output = []) :
    hasRet lines = false ∧ BodyLine.declOkay ∉ lines ∧
    BodyLine.loopForever ∈ lines ∧
    renderBodyLine n b BodyLine.loopForever = "\tfor (;;);" := by
  obtain ⟨st4, outOps, f1, inOps, stores, hass, _, _, hdecl, _,
    ho, hi, hs, hempty⟩ := generate_st4_facts n b sc lines h
  obtain ⟨houts, hf1, hstores⟩ := hempty hout
  subst houts hstores hf1
  rw [hass, assemble_noreturn_empty b sc st4 inOps hnr hout]
  refine ⟨?_, ?_, ?_, rfl⟩
  · rw [hasRet]
    simp only [List.any_append, List.any_cons, List.any_nil]
    have h4 : (st4.lines.any fun l =>
        match l with
        | BodyLine.retZero => true
        | BodyLine.retErrno _ => true
        | _ => false) = false := by
      rw [List.any_eq_false]
      intro l hl
      obtain ⟨r, w, rfl⟩ := hdecl l hl
      exact Bool.false_ne_true
    have hio : (inOps.any fun l =>
        match l with
        | BodyLine.retZero => true
        | BodyLine.retErrno _ => true
        | _ => false) = false := by
      rw [List.any_eq_false]
      intro l hl
      obtain ⟨r, rfl⟩ := hi l hl
      exact Bool.false_ne_true
    rw [h4, hio]
    rfl
  · intro hmem
    simp only [List.mem_append, List.mem_cons, List.mem_singleton] at hmem
    rcases hmem with ((((h1 | h1) | h1) | h1) | h1)
    · simp at h1
    · obtain ⟨r, w, he⟩ := hdecl _ h1
      exact BodyLine.noConfusion he
    · rcases h1 with h1 | h1 | h1 | h1 <;> simp_all
    · obtain ⟨r, he⟩ := hi _ h1
      exact BodyLine.noConfusion he
    · rcases h1 with h1 | h1 | h1 <;> simp_all
  · simp

theorem ccast_error {n : CNaming} {a c : CType} {s : String}
    {e : GenError} (h : ccast n a c s = .error e) :
    ∃ tf tt, e = .cast tf tt := by
  rw [ccast] at h
  split at h
  · split at h
    · exact ⟨a, c, (Except.error.inj h).symm⟩
    · exact Except.noConfusion h
  · exact Except.noConfusion h

theorem genInputs_error_cast (n : CNaming) (b : Backend) :
    ∀ (ps : List Param) (i : Nat) (st : RegSt) (e : GenError),
    genInputs n b (List.enumFrom i ps) st = .error e →
    i + ps.length ≤ b.input_registers.length →
    (st.defined ++ (b.input_registers.drop i).take ps.length).Nodup →
    ∃ tf tt, e = .cast tf tt := by
  intro ps
  induction ps with
  | nil =>
      intro i st e h
      rw [List.enumFrom_nil, genInputs] at h
      exact absurd h (by simp)
  | cons p rest ih =>
      intro i st e h hle hnd
      have hlt : i < b.input_registers.length := by
        simp only [List.length_cons] at hle
        omega
      rw [List.enumFrom_cons, genInputs] at h
      split at h
      · rename_i hreg
        rw [List.getElem?_eq_getElem hlt] at hreg
        exact Option.noConfusion hreg
      · rename_i reg hreg
        have hregEq : reg = b.input_registers[i] := by
          rw [List.getElem?_eq_getElem hlt] at hreg
          exact (Option.some.inj hreg).symm
        subst hregEq
        have hdrop : b.input_registers.drop i =
            b.input_registers[i] :: b.input_registers.drop (i + 1) :=
          List.drop_eq_getElem_cons hlt
        rw [hdrop, List.length_cons, List.take_succ_cons] at hnd
        have hfresh : b.input_registers[i] ∉ st.defined := by
          intro hmem
          rw [List.nodup_append] at hnd
          exact hnd.2.2 hmem (List.mem_cons_self _ _)
        split at h
        · rename_i e' hcast
          obtain ⟨tf, tt, rfl⟩ := ccast_error hcast
          exact ⟨tf, tt, (Except.error.inj h).symm⟩
        · rename_i v hcast
          split at h
          · rename_i e' hdef
            rw [defineReg_some_fresh st _ _ hfresh] at hdef
            exact Except.noConfusion hdef
          · rename_i st2 hdef
            obtain ⟨hfr, hst2⟩ := defineReg_some_ok hdef
            subst hst2
            refine ih (i + 1) _ e h
              (by simp only [List.length_cons] at hle; omega) ?_
            show ((st.defined ++ [b.input_registers[i]]) ++
              (b.input_registers.drop (i + 1)).take rest.length).Nodup
            rw [List.append_assoc, List.singleton_append]
            exact hnd

theorem genOutputs_total (b : Backend) :
    ∀ (k i : Nat) (st : RegSt),
    i + k ≤ b.output_registers.length →
    ∃ st', genOutputs b (List.range' i k) st = .ok st' := by
  intro k
  induction k with
  | zero =>
      intro i st _
      exact ⟨st, by rw [show List.range' i 0 = [] from rfl, genOutputs]⟩
  | succ k ih =>
      intro i st hle
      have hlt : i < b.output_registers.length := by omega
      obtain ⟨st', hst'⟩ := ih (i + 1)
        (if b.output_registers[i] ∈ st.defined then st
          else ⟨st.defined ++ [b.output_registers[i]],
            st.lines ++ [.declReg b.output_registers[i] none]⟩)
        (by omega)
      refine ⟨st', ?_⟩
      rw [List.range'_succ i k 1, genOutputs]
      simp only [List.getElem?_eq_getElem hlt, defineReg_none_ok]
      exact hst'

theorem outOperands_total (b : Backend) :
    ∀ (k i : Nat) (f : Bool),
    i + k ≤ b.output_registers.length →
    ∃ res, outOperands b (List.range' i k) f = .ok res := by
  intro k
  induction k with
  | zero =>
      intro i f _
      exact ⟨([], f), by
        rw [show List.range' i 0 = [] from rfl, outOperands]⟩
  | succ k ih =>
      intro i f hle
      have hlt : i < b.output_registers.length := by omega
      obtain ⟨⟨ls, f'⟩, hrec⟩ := ih (i + 1) false (by omega)
      refine ⟨(.operandOut f b.output_registers[i] :: ls, f'), ?_⟩
      rw [List.range'_succ i k 1, outOperands]
      simp only [List.getElem?_eq_getElem hlt, hrec]

theorem inOperands_total (b : Backend) :
    ∀ (k i : Nat),
    i + k ≤ b.input_registers.length →
    ∃ ls, inOperands b (List.range' i k) = .ok ls := by
  intro k
  induction k with
  | zero =>
      intro i _
      exact ⟨[], by rw [show List.range' i 0 = [] from rfl, inOperands]⟩
  | succ k ih =>
      intro i hle
      have hlt : i < b.input_registers.length := by omega
      obtain ⟨ls, hrec⟩ := ih (i + 1) (by omega)
      refine ⟨.inputReg b.input_registers[i] :: ls, ?_⟩
      rw [List.range'_succ i k 1, inOperands]
      simp only [List.getElem?_eq_getElem hlt, hrec]

theorem storeOuts_error_cast (n : CNaming) (b : Backend) :
    ∀ (ps : List Param) (i : Nat) (e : GenError),
    storeOuts n b (List.enumFrom i ps) = .error e →
    i + ps.length ≤ b.output_registers.length →
    ∃ tf tt, e = .cast tf tt := by
  intro ps
  induction ps with
  | nil =>
      intro i e h
      rw [List.enumFrom_nil, storeOuts] at h
      exact absurd h (by simp)
  | cons p rest ih =>
      intro i e h hle
      have hlt : i < b.output_registers.length := by
        simp only [List.length_cons] at hle
        omega
      rw [List.enumFrom_cons, storeOuts] at h
      split at h
      · rename_i hreg
        rw [List.getElem?_eq_getElem hlt] at hreg
        exact Option.noConfusion hreg
      · rename_i reg hreg
        split at h
        · rename_i e' hcast
          obtain ⟨tf, tt, rfl⟩ := ccast_error hcast
          exact ⟨tf, tt, (Except.error.inj h).symm⟩
        · rename_i v hcast
          split at h
          · rename_i e' hrec
            have := Except.error.inj h
            subst this
            exact ih (i + 1) e' hrec
              (by simp only [List.length_cons] at hle; omega)
          · exact Except.noConfusion h

/-- The only abort reachable when the number register and input
registers are pairwise distinct and the member counts fit the register
files is the cast-size failure of `_ccast`. -/
theorem generate_cast_only (n : CNaming) (b : Backend) (sc : Syscall)
    (hnodup : (b.syscall_num_register :: b.input_registers).Nodup)
    (hin : sc.input.length ≤ b.input_registers.length)
    (hout : sc.output.length ≤ b.output_registers.length) :
    castOnly (generate_syscall_body n b sc) = true := by
  cases hgen : generate_syscall_body n b sc with
  | ok ls => rfl
  | error e =>
      rw [generate_syscall_body] at hgen
      rw [exceptBind_error] at hgen
      rcases hgen with h1 | ⟨st1, h1, hgen⟩
      · rw [defineReg_some_fresh ⟨[], []⟩ _ _ (by simp)] at h1
        exact Except.noConfusion h1
      obtain ⟨hfresh1, hst1⟩ := defineReg_some_ok h1
      rw [exceptBind_error] at hgen
      rcases hgen with h2 | ⟨st2, h2, hgen⟩
      · rw [List.enum_eq_enumFrom] at h2
        have hnd : (st1.defined ++
            (b.input_registers.drop 0).take sc.input.length).Nodup := by
          rw [hst1]
          show (([] ++ [b.syscall_num_register]) ++
            (b.input_registers.drop 0).take sc.input.length).Nodup
          rw [List.nil_append, List.drop_zero, List.singleton_append]
          exact List.Nodup.sublist
            (List.Sublist.cons₂ _ (List.take_sublist _ _)) hnodup
        obtain ⟨tf, tt, rfl⟩ := genInputs_error_cast n b sc.input 0 st1
          e h2 (by omega) hnd
        rfl
      rw [exceptBind_error] at hgen
      rcases hgen with h3 | ⟨st3, h3, hgen⟩
      · obtain ⟨st3', htot⟩ := genOutputs_total b sc.output.length 0 st2
          (by omega)
        rw [List.range_eq_range', htot] at h3
        exact Except.noConfusion h3
      rw [exceptBind_error] at hgen
      rcases hgen with h4 | ⟨st4, h4, hgen⟩
      · rw [defineReg_none_ok] at h4
        exact Except.noConfusion h4
      rw [exceptBind_error] at hgen
      rcases hgen with h5 | ⟨outRes, h5, hgen⟩
      · obtain ⟨res, htot⟩ := outOperands_total b sc.output.length 0
          (!decide (0 < sc.output.length)) (by omega)
        rw [List.range_eq_range', htot] at h5
        exact Except.noConfusion h5
      rw [exceptBind_error] at hgen
      rcases hgen with h6 | ⟨inOps, h6, hgen⟩
      · obtain ⟨ls, htot⟩ := inOperands_total b sc.input.length 0
          (by omega)
        rw [List.range_eq_range', htot] at h6
        exact Except.noConfusion h6
      rw [exceptBind_error] at hgen
      rcases hgen with h7 | ⟨stores, h7, hgen⟩
      · rw [List.enum_eq_enumFrom] at h7
        obtain ⟨tf, tt, rfl⟩ := storeOuts_error_cast n b sc.output 0 e
          h7 (by omega)
        rfl
      · exact Except.noConfusion hgen

instance {ε α : Type} [DecidableEq ε] [DecidableEq α] :
    DecidableEq (Except ε α) := fun x y =>
  match x, y with
  | .ok a, .ok c =>
      if h : a = c then .isTrue (by rw [h])
      else .isFalse fun hc => h (Except.ok.inj hc)
  | .error a, .error c =>
      if h : a = c then .isTrue (by rw [h])
      else .isFalse fun hc => h (Except.error.inj hc)
  | .ok _, .error _ => .isFalse fun hc => Except.noConfusion hc
  | .error _, .ok _ => .isFalse fun hc => Except.noConfusion hc

/-- The error of a failed generation, when it failed. -/
def genErrorOf {α : Type} : Except GenError α → Option GenError
  | .error e => some e
  | .ok _ => none

/-- The naming configuration used for the concrete witnesses. -/
def sampleNaming : CNaming := ⟨"cloudabi_", none, true⟩

/-- A representative one-input, one-output syscall. -/
def c2Sample : Syscall :=
  ⟨"clock_time_get", 23, false, false,
    [⟨"clock_id", .userDefined "clockid" ⟨(4, 4), (4, 4), false⟩⟩],
    [⟨"time", .userDefined "timestamp" ⟨(8, 8), (8, 8), false⟩⟩]⟩

/-- A noreturn syscall that nonetheless carries an output member. -/
def c4Bad : Syscall :=
  ⟨"bad_noreturn", 9, false, true, [],
    [⟨"out", .userDefined "x" ⟨(8, 8), (8, 8), false⟩⟩]⟩

/-- A well-formed noreturn syscall with no output members. -/
def c4Good : Syscall :=
  ⟨"proc_exit", 24, false, true,
    [⟨"rval", .userDefined "exitcode" ⟨(4, 4), (4, 4), false⟩⟩], []⟩

/-- A non-noreturn syscall with no output members. -/
def c8Sample : Syscall :=
  ⟨"fd_close", 11, false, false,
    [⟨"fd", .userDefined "fd" ⟨(4, 4), (4, 4), false⟩⟩], []⟩

/-- A syscall with more output members than output registers. -/
def c10Bad : Syscall :=
  ⟨"bad", 1, false, false, [],
    [⟨"a", uint64T⟩, ⟨"b", uint64T⟩, ⟨"c", uint64T⟩]⟩

/-- Witness for `c2_syscall_register_set` on the x86-64 backend. -/
theorem c2_syscall_register_set_witness :
    (declaredRegs (bodyLines sampleNaming x86_64Backend c2Sample)).Nodup ∧
    (declaredRegs
        (bodyLines sampleNaming x86_64Backend c2Sample)).toFinset =
      {x86_64Backend.syscall_num_register} ∪
        (x86_64Backend.input_registers.take
          c2Sample.input.length).toFinset ∪
        (x86_64Backend.output_registers.take
          c2Sample.output.length).toFinset ∪
        {x86_64Backend.errno_register} :=
  c2_syscall_register_set sampleNaming x86_64Backend c2Sample
    (bodyLines sampleNaming x86_64Backend c2Sample) (by decide)

/-- C4 counterexample: a syscall marked noreturn that has an output
member does emit a return statement (`return 0;` inside the okay
guard) and does declare the extra okay/status variable. -/
theorem c4_counterexample_noreturn_with_output :
    c4Bad.noreturn = true ∧
    genOk (generate_syscall_body sampleNaming x86_64Backend c4Bad) =
      true ∧
    hasRet (bodyLines sampleNaming x86_64Backend c4Bad) = true ∧
    BodyLine.declOkay ∈ bodyLines sampleNaming x86_64Backend c4Bad ∧
    BodyLine.retZero ∈ bodyLines sampleNaming x86_64Backend c4Bad := by
  refine ⟨rfl, by decide, by decide, by decide, by decide⟩

/-- Witness for `c4_amended_noreturn_body` at a concrete noreturn
syscall without outputs. -/
theorem c4_amended_noreturn_body_witness :
    hasRet (bodyLines sampleNaming x86_64Backend c4Good) = false ∧
    BodyLine.declOkay ∉ bodyLines sampleNaming x86_64Backend c4Good ∧
    BodyLine.loopForever ∈ bodyLines sampleNaming x86_64Backend c4Good ∧
    renderBodyLine sampleNaming x86_64Backend BodyLine.loopForever =
      "\tfor (;;);" :=
  c4_amended_noreturn_body sampleNaming x86_64Backend c4Good
    (bodyLines sampleNaming x86_64Backend c4Good) (by decide) rfl rfl

/-- Witness for `c8_errno_operand_condition`: a non-noreturn syscall
with no outputs gets the extra errno operand. -/
theorem c8_errno_operand_condition_witness :
    hasErrOperand x86_64Backend
      (bodyLines sampleNaming x86_64Backend c8Sample) = true :=
  (c8_errno_operand_condition sampleNaming x86_64Backend c8Sample
    (bodyLines sampleNaming x86_64Backend c8Sample) (by decide)).trans
    (by decide)

/-- C10 counterexample: a syscall with at most six input members but
three output members aborts with the output-register index error,
which is neither the cast-size failure nor input-register
exhaustion. -/
theorem c10_counterexample_output_index :
    genErrorOf (generate_syscall_body sampleNaming x86_64Backend
      c10Bad) = some .outputIndex ∧
    castOnly (generate_syscall_body sampleNaming x86_64Backend
      c10Bad) = false ∧
    GenError.outputIndex ≠ GenError.inputIndex ∧
    c10Bad.input.length ≤ 6 := by
  refine ⟨by decide, by decide, by decide, by decide⟩

/-- C10 amended: for both reference backends the syscall-number
register and the six input registers are pairwise distinct, so the
`define_reg` assertion can never fire; and for every syscall with at
most six input members and at most two output members, the only abort
reachable during lowering is the documented cast-size failure. -/
theorem c10_amended_backend_aborts :
    (x86_64Backend.syscall_num_register ::
      x86_64Backend.input_registers).Nodup ∧
    (aarch64Backend.syscall_num_register ::
      aarch64Backend.input_registers).Nodup ∧
    (∀ (n : CNaming) (sc : Syscall), sc.input.length ≤ 6 →
      sc.output.length ≤ 2 →
      castOnly (generate_syscall_body n x86_64Backend sc) = true ∧
      castOnly (generate_syscall_body n aarch64Backend sc) = true) := by
  refine ⟨by decide, by decide, fun n sc h6 h2 => ⟨?_, ?_⟩⟩
  · exact generate_cast_only n x86_64Backend sc (by decide) h6 h2
  · exact generate_cast_only n aarch64Backend sc (by decide) h6 h2

/-- Witness for `c10_amended_backend_aborts` at a concrete syscall. -/
theorem c10_amended_backend_aborts_witness :
    castOnly (generate_syscall_body sampleNaming x86_64Backend
      c2Sample) = true ∧
    castOnly (generate_syscall_body sampleNaming aarch64Backend
      c2Sample) = true :=
  c10_amended_backend_aborts.2.2 sampleNaming c2Sample (by decide)
    (by decide)
